import Mathlib

/-!
Verification development for the `cargo-bpf` build pipeline
(`src/cargo-bpf/src/build.rs` of the redbpf repository).

The pipeline is shallowly embedded:
* the parsed ELF view used by `check_tc_action_relocs` becomes the `Elf`
  structure (section headers, a string-table lookup, a symbol table and
  per-section relocation lists, exactly the fields the function reads);
* the effectful body of `build_probe` becomes a pure function from an
  oracle of external outcomes (`ProbeEnv`: results of the removed
  directory, kernel-version detection, the version guard inputs, the
  external `cargo` process, the LLVM backend calls, stripping and the
  final rename) and a per-probe workspace to an event trace, the updated
  workspace and a `Except Error Unit` result;
* the probe loop of `build_with_features` becomes `run_probes`, threading
  a filesystem (a map from probe name to its artifacts directory) through
  the per-probe builds.
-/

set_option maxHeartbeats 1000000
set_option maxRecDepth 100000

namespace RedBpf

/-! ## String helpers

Rust's `str::starts_with` and byte-slicing (`&s[4..]`) are modelled on the
character list underlying a Lean `String` (the names involved are ASCII, so
byte indices and character indices agree). -/

/-- Rust `str::starts_with`. -/
def strStartsWith (s p : String) : Bool := p.data.isPrefixOf s.data

/-- Rust slicing `&s[n..]` for ASCII prefixes. -/
def strDrop (s : String) (n : Nat) : String := String.mk (s.data.drop n)

instance exceptDecEq {e a : Type} [DecidableEq e] [DecidableEq a] :
    DecidableEq (Except e a) := fun x y =>
  match x, y with
  | .ok u, .ok v =>
    if h : u = v then .isTrue (by rw [h]) else .isFalse (fun hc => by cases hc; exact h rfl)
  | .error u, .error v =>
    if h : u = v then .isTrue (by rw [h]) else .isFalse (fun hc => by cases hc; exact h rfl)
  | .ok _, .error _ => .isFalse (fun hc => by cases hc)
  | .error _, .ok _ => .isFalse (fun hc => by cases hc)

/-! ## ELF object model (goblin's parsed view, restricted to what is read) -/

/-- A relocation entry: `build.rs` only reads `reloc.r_sym`. -/
structure Reloc where
  r_sym : Nat
  deriving DecidableEq, Repr

/-- A section header: `build.rs` only reads `shdr.sh_name`. -/
structure SectionHeader where
  sh_name : Nat
  deriving DecidableEq, Repr

/-- A symbol table entry: `build.rs` reads `sym.st_shndx` and `sym.st_type()`. -/
structure Sym where
  st_info : Nat
  st_shndx : Nat
  deriving DecidableEq, Repr

/-- goblin's `Sym::st_type`: the low nibble of `st_info`. -/
def Sym.st_type (s : Sym) : Nat := s.st_info % 16

/-- `goblin::elf::sym::STT_SECTION`. -/
def STT_SECTION : Nat := 3

/-- The parsed ELF binary, restricted to the fields `check_tc_action_relocs`
reads.  `shdr_strtab` models `binary.shdr_strtab.get_at`, which resolves a
byte offset to a section name and may fail. -/
structure Elf where
  section_headers : List SectionHeader
  shdr_strtab : Nat → Option String
  syms : List Sym
  shdr_relocs : List (Nat × List Reloc)

/-! ## Error type (`enum Error` of build.rs) -/

/-- `enum Error` from build.rs.  `IOError` and `PatternError` carry the
display string of the wrapped error. -/
inductive Error where
  | MissingManifest (p : String)
  | NoPrograms
  | NoLLC
  | NoOPT
  | Compile (p : String) (msg : Option String)
  | MissingBitcode (p : String)
  | Link (p : String)
  | IOError (msg : String)
  | PatternError (msg : String)
  | BTF
  | InvalidLLVMVersion (p : String)
  | IllegalProgram (p : String)
  deriving DecidableEq, Repr

/-! ## check_tc_action_relocs (build.rs lines 266-310) -/

/-- The message built at build.rs:305 for an illegal tc_action relocation;
`progSec` is the relocation section name with its `.rel` prefix removed and
`dataSec` is the section the relocated symbol lives in. -/
def tcRelocMsg (progSec dataSec : String) : String :=
  "`" ++ progSec ++ "` section has a relocation for `" ++ dataSec ++
  "` section. But tc utility does not support relocation except for maps. Did you use `map.get(&42)` instead of `map.get(&key)`?"

/-- Inner loop of `check_tc_action_relocs` (build.rs:282-307): walk the
relocation entries of one `.reltc_action/` section, skipping entries whose
symbol, symbol section header or symbol section name do not resolve, and
failing on the first resolved symbol whose type is `STT_SECTION`. -/
def checkRelocList (b : Elf) (hdr_name : String) : List Reloc → Except Error Unit
  | [] => .ok ()
  | reloc :: rest =>
    match b.syms[reloc.r_sym]? with
    | none => checkRelocList b hdr_name rest
    | some sym =>
      match b.section_headers[sym.st_shndx]? with
      | none => checkRelocList b hdr_name rest
      | some sym_shdr =>
        match b.shdr_strtab sym_shdr.sh_name with
        | none => checkRelocList b hdr_name rest
        | some sym_hdr_name =>
          if sym.st_type = STT_SECTION then
            .error (.IllegalProgram (tcRelocMsg (strDrop hdr_name 4) sym_hdr_name))
          else
            checkRelocList b hdr_name rest

/-- Outer loop of `check_tc_action_relocs` (build.rs:267-281): for each
relocation section, resolve its header and name (skipping on failure) and
run the inner check when the name starts with `.reltc_action/`. -/
def checkRelocSecs (b : Elf) : List (Nat × List Reloc) → Except Error Unit
  | [] => .ok ()
  | (shidx, relsec) :: rest =>
    match b.section_headers[shidx]? with
    | none => checkRelocSecs b rest
    | some shdr =>
      match b.shdr_strtab shdr.sh_name with
      | none => checkRelocSecs b rest
      | some hdr_name =>
        if strStartsWith hdr_name ".reltc_action/" then
          match checkRelocList b hdr_name relsec with
          | .ok _ => checkRelocSecs b rest
          | .error e => .error e
        else
          checkRelocSecs b rest

/-- `check_tc_action_relocs` (build.rs:266). -/
def check_tc_action_relocs (b : Elf) : Except Error Unit :=
  checkRelocSecs b b.shdr_relocs

/-! ## Specification-side predicate for the validator

Written from the spec's words (§4.5, §8.4): a relocation entry is bad when
its symbol resolves, the symbol's containing section and that section's
name resolve, and the symbol's type marks a plain section reference. -/

/-- If the relocation entry is fully resolvable and its symbol has type
`STT_SECTION`, return the name of the referenced data section. -/
def relocBadInfo (b : Elf) (r : Reloc) : Option String :=
  match b.syms[r.r_sym]? with
  | none => none
  | some sym =>
    match b.section_headers[sym.st_shndx]? with
    | none => none
    | some shdr =>
      match b.shdr_strtab shdr.sh_name with
      | none => none
      | some n => if sym.st_type = STT_SECTION then some n else none

/-- A relocation entry that must be rejected. -/
def relocEntryBad (b : Elf) (r : Reloc) : Bool :=
  (relocBadInfo b r).isSome

/-- Resolve the name of the section with header index `shidx`. -/
def relocSecName (b : Elf) (shidx : Nat) : Option String :=
  match b.section_headers[shidx]? with
  | none => none
  | some shdr => b.shdr_strtab shdr.sh_name

/-- Spec side: a relocation section whose resolved name carries the
traffic-control relocation prefix contains a bad entry. -/
def relocSecBad (b : Elf) (pr : Nat × List Reloc) : Bool :=
  match relocSecName b pr.1 with
  | none => false
  | some name => strStartsWith name ".reltc_action/" && pr.2.any (relocEntryBad b)

/-- Spec side: some `.reltc_action/` relocation section of the object has a
relocation entry whose resolved symbol is a plain section reference. -/
def spec_has_bad_tc_reloc (b : Elf) : Bool :=
  b.shdr_relocs.any (relocSecBad b)

/-! ## Kernel version resolver (build.rs lines 139-149) -/

/-- `bpf_sys::headers::KernelVersion`: the fields `build_probe` reads. -/
structure KernelVersion where
  version : Nat
  patchlevel : Nat
  deriving DecidableEq, Repr

/-- The `--cfg kernel_version=...` string computed at build.rs:139-149 from
the result of `build_kernel_version()` (`none` models detection failure). -/
def kernel_version_cfg (kv : Option KernelVersion) : String :=
  match kv with
  | some v0 =>
    let v := if v0.version ≥ 5 ∧ v0.patchlevel ≥ 7 then { v0 with patchlevel := 7 } else v0
    "kernel_version=\"" ++ toString v.version ++ "." ++ toString v.patchlevel ++ "\""
  | none => "kernel_version=\"unknown\""

/-! ## LLVM version guard (build.rs lines 160-186) -/

/-- A semantic version as used by the `semver` / `rustc_version` crates. -/
structure SemVer where
  major : Nat
  minor : Nat
  patch : Nat
  deriving DecidableEq, Repr

/-- The error message built at build.rs:176-185, naming the linked version
`l` and the rustc (active) version `a`. -/
def llvmVersionMsg (l a : SemVer) : String :=
  "LLVM version that cargo-bpf linked to (" ++ toString l.major ++ "." ++ toString l.minor ++
  ") < LLVM version that rustc depends on (" ++ toString a.major ++ "." ++ toString a.minor ++
  "). You should re-build cargo-bpf with LLVM version (" ++ toString a.major ++ "." ++
  toString a.minor ++ "), or downgrade rustc that uses LLVM version (" ++
  toString l.major ++ "." ++ toString l.minor ++ ")"

/-- The comparison at build.rs:171-186: fail when the linked LLVM version is
lexicographically below the active (rustc) LLVM version on (major, minor). -/
def llvm_version_guard (linked active : SemVer) : Except Error Unit :=
  if linked.major < active.major ∨
      (linked.major = active.major ∧ linked.minor < active.minor) then
    .error (.InvalidLLVMVersion (llvmVersionMsg linked active))
  else
    .ok ()

/-! ## Workspace and filesystem model

A probe's artifacts directory is a list of (file name, content) pairs with
unique names; the whole target tree maps each probe name to its artifacts
directory `target/bpf/programs/<probe>`.  File contents are abstract. -/

/-- Abstract file contents. -/
abbrev Content := Nat

/-- One artifacts directory. -/
abbrev Workspace := List (String × Content)

/-- Write (create or overwrite) a file. -/
def wsWrite (ws : Workspace) (name : String) (c : Content) : Workspace :=
  (name, c) :: ws.filter (fun pr => pr.1 ≠ name)

/-- Read a file. -/
def wsGet (ws : Workspace) (name : String) : Option Content :=
  (ws.find? (fun pr => pr.1 = name)).map (fun pr => pr.2)

/-- Delete a file. -/
def wsRemove (ws : Workspace) (name : String) : Workspace :=
  ws.filter (fun pr => pr.1 ≠ name)

/-- Write a batch of files in order. -/
def wsWriteAll (ws : Workspace) : List (String × Content) → Workspace
  | [] => ws
  | f :: rest => wsWriteAll (wsWrite ws f.1 f.2) rest

/-- The target tree: probe name to artifacts directory. -/
abbrev FS := String → Workspace

/-- Replace one probe's artifacts directory. -/
def fsSet (fs : FS) (p : String) (ws : Workspace) : FS :=
  fun q => if q = p then ws else fs q

/-- Rust `Path::extension` on a file name: the part after the last dot,
none when there is no dot past the first character. -/
def fileExtension (name : String) : Option String :=
  match name.data with
  | [] => none
  | c :: rest =>
    if rest.contains '.' then
      some (String.mk (((c :: rest).reverse.takeWhile (fun ch => ch ≠ '.')).reverse))
    else none

/-- `ext == "bc"`: the filter applied to the artifacts directory at
build.rs:210-220. -/
def isBcFile (name : String) : Bool := fileExtension name == some "bc"

/-- Rust `Path::with_extension`. -/
def with_extension (name ext : String) : String :=
  match fileExtension name with
  | none => name ++ "." ++ ext
  | some e => String.mk (name.data.take (name.data.length - (e.length + 1))) ++ "." ++ ext

/-! ## Events and the external-outcome oracle -/

/-- Observable steps of one `build_probe` run, in program order. -/
inductive Ev where
  | createTargetDir
  | removeArtifactsDir (probe : String)
  | createArtifactsDir (probe : String)
  | kernelVersionDetect
  | llvmVersionCheck
  | cargoCompile (probe : String) (kernelCfg : String)
  | llvmCompile (probe : String)
  | sectionNamesQuery (probe : String)
  | parseObject (probe : String)
  | btfFixup (probe : String)
  | stripSections (probe : String) (keepBtf : Bool)
  | renameToFinal (probe : String)
  deriving DecidableEq, Repr

/-- Outcomes of every external interaction of one `build_probe` call:
processes, the LLVM backend library, kernel-version detection and the
fallible filesystem calls whose failure the code tolerates.  `parse`,
`btf_fix` and `strip_out` are functions of the abstract bytes they are
applied to. -/
structure ProbeEnv where
  /-- does `fs::remove_dir_all(&artifacts_dir)` (build.rs:135) succeed? -/
  remove_ok : Bool
  /-- result of `build_kernel_version()` (none models `Err`). -/
  kernel : Option KernelVersion
  /-- parse of `env!("CARGO_BPF_LLVM_VERSION")` (none models `Err`). -/
  linked_llvm : Option SemVer
  /-- `rustc_version::version_meta()` and its `llvm_version` field. -/
  rustc_meta : Option (Option SemVer)
  /-- display string of a `version_meta()` error. -/
  rustc_err : String
  /-- does the `cargo rustc` child process exit successfully? -/
  cargo_ok : Bool
  /-- files the successful compiler run leaves in the artifacts directory. -/
  cargo_writes : List (String × Content)
  /-- does `llvm::compile` succeed? -/
  llc_ok : Bool
  /-- diagnostic string of a failed `llvm::compile`. -/
  llc_err : String
  /-- bytes `llvm::compile` writes to `<probe>.elf.tmp`. -/
  obj_content : Content
  /-- bytes `llvm::compile` writes to the optimized-IR copy. -/
  opt_content : Content
  /-- `llvm::get_function_section_names` (none models `Err`). -/
  section_names : Option (List String)
  /-- `Elf::parse` on given object bytes (none models a parse failure). -/
  parse : Content → Option Elf
  /-- `btf::tc_legacy_fix_btf_section` on given bytes. -/
  btf_fix : Content → Option Content
  /-- does `llvm::strip_unnecessary` succeed? -/
  strip_ok : Bool
  /-- bytes after a successful strip. -/
  strip_out : Content → Content
  /-- does `fs::rename` to the final name succeed? -/
  rename_ok : Bool

/-- build.rs:237-243: query the function section names of the bitcode file,
treat failure as an empty list, and test for a `tc_action/` section. -/
def containsTc (env : ProbeEnv) : Bool :=
  (match env.section_names with
   | some names => names
   | none => []).any (fun n => strStartsWith n "tc_action/")

/-- Resolution of the two LLVM versions (build.rs:160-170) followed by the
comparison (build.rs:171-186). -/
def stageGuardResult (env : ProbeEnv) : Except Error Unit :=
  match env.linked_llvm with
  | none => .error (.InvalidLLVMVersion "Unknown LLVM version that cargo-bpf linked to")
  | some linked =>
    match env.rustc_meta with
    | none => .error (.InvalidLLVMVersion ("Failed to get LLVM version of rustc: " ++ env.rustc_err))
    | some none => .error (.InvalidLLVMVersion "Failed to get LLVM version of rustc")
    | some (some active) => llvm_version_guard linked active

/-- The events every `build_probe` run emits first, in order. -/
def tracePre (p : String) : List Ev :=
  [Ev.createTargetDir, Ev.removeArtifactsDir p, Ev.createArtifactsDir p,
   Ev.kernelVersionDetect, Ev.llvmVersionCheck]

/-! ## build_probe stages

Each stage returns its own event list, the updated artifacts directory and
the stage outcome; callers prepend their events.  All filesystem effects of
`build_probe` happen inside the probe's own artifacts directory, so the
stages operate on a `Workspace`. -/

/-- The effect of `let _ = llvm::strip_unnecessary(..)` (build.rs:253) on
the temporary object: on success the object is rewritten in place, on
failure (or a missing object) nothing changes. -/
def stripAttempt (env : ProbeEnv) (ws : Workspace) (tmpName : String) : Workspace :=
  if env.strip_ok then
    match wsGet ws tmpName with
    | some c => wsWrite ws tmpName (env.strip_out c)
    | none => ws
  else ws

/-- build.rs:253-256: attempt `llvm::strip_unnecessary` (failure ignored),
then rename `<probe>.elf.tmp` to `<probe>.elf`. -/
def stageFinal (env : ProbeEnv) (probe : String) (ws : Workspace) (tmpName : String)
    (keep : Bool) : List Ev × Workspace × Except Error Unit :=
  let ws1 := stripAttempt env ws tmpName
  let tr := [Ev.stripSections probe keep, Ev.renameToFinal probe]
  if env.rename_ok then
    match wsGet ws1 tmpName with
    | some c => (tr, wsWrite (wsRemove ws1 tmpName) (probe ++ ".elf") c, .ok ())
    | none => (tr, ws1, .error (.IOError "rename failed"))
  else
    (tr, ws1, .error (.IOError "rename failed"))

/-- build.rs:237-252: compute the tc_action condition; when it holds, read
the temporary object, parse it, validate its relocations, fix its BTF
section and write the result back, then finalize. -/
def stageTc (env : ProbeEnv) (probe : String) (ws : Workspace) (tmpName : String) :
    List Ev × Workspace × Except Error Unit :=
  let ctc := containsTc env
  if ctc then
    match wsGet ws tmpName with
    | none => ([Ev.sectionNamesQuery probe], ws, .error (.IOError "read failed"))
    | some bytes =>
      match env.parse bytes with
      | none =>
        ([Ev.sectionNamesQuery probe, Ev.parseObject probe], ws,
         .error (.IllegalProgram (probe ++ ": failed to parse ELF")))
      | some elf =>
        match check_tc_action_relocs elf with
        | .error e => ([Ev.sectionNamesQuery probe, Ev.parseObject probe], ws, .error e)
        | .ok _ =>
          match env.btf_fix bytes with
          | none =>
            ([Ev.sectionNamesQuery probe, Ev.parseObject probe, Ev.btfFixup probe], ws,
             .error .BTF)
          | some fixed =>
            let out := stageFinal env probe (wsWrite ws tmpName fixed) tmpName ctc
            ([Ev.sectionNamesQuery probe, Ev.parseObject probe, Ev.btfFixup probe] ++ out.1,
             out.2)
  else
    let out := stageFinal env probe ws tmpName ctc
    ([Ev.sectionNamesQuery probe] ++ out.1, out.2)

/-- build.rs:225-233: run `llvm::compile` on the unique bitcode file,
producing the optimized-IR copy and the temporary object. -/
def stageLlc (env : ProbeEnv) (probe : String) (ws : Workspace) (bc_file : String) :
    List Ev × Workspace × Except Error Unit :=
  if env.llc_ok then
    let tmpName := probe ++ ".elf.tmp"
    let ws1 := wsWrite (wsWrite ws (with_extension bc_file "bc.opt") env.opt_content)
        tmpName env.obj_content
    let out := stageTc env probe ws1 tmpName
    (Ev.llvmCompile probe :: out.1, out.2)
  else
    ([Ev.llvmCompile probe], ws,
     .error (.Compile probe (some ("couldn\x27t process IR file: " ++ env.llc_err))))

/-- build.rs:188-223: run the external compiler, then require exactly one
`bc` file in the artifacts directory. -/
def stageCargo (env : ProbeEnv) (probe : String) (ws : Workspace) (cfg : String) :
    List Ev × Workspace × Except Error Unit :=
  if env.cargo_ok then
    let ws1 := wsWriteAll ws env.cargo_writes
    match (ws1.map (fun pr => pr.1)).filter isBcFile with
    | [bc_file] =>
      let out := stageLlc env probe ws1 bc_file
      (Ev.cargoCompile probe cfg :: out.1, out.2)
    | _ => ([Ev.cargoCompile probe cfg], ws1, .error (.MissingBitcode probe))
  else
    ([Ev.cargoCompile probe cfg], ws, .error (.Compile probe none))

/-- `build_probe` (build.rs:125-257) acting on the probe's own artifacts
directory: create the target tree, delete (failure ignored) and recreate
the artifacts directory, detect the kernel version, run the LLVM version
guard, and hand over to the compile stages. -/
def buildProbeCore (env : ProbeEnv) (probe : String) (ws : Workspace) :
    List Ev × Workspace × Except Error Unit :=
  let ws1 := if env.remove_ok then [] else ws
  let pre := tracePre probe
  match stageGuardResult env with
  | .error e => (pre, ws1, .error e)
  | .ok _ =>
    let out := stageCargo env probe ws1 (kernel_version_cfg env.kernel)
    (pre ++ out.1, out.2)

/-- `build_probe` on the whole target tree: all effects land in the probe's
own artifacts directory. -/
def build_probe (env : ProbeEnv) (probe : String) (fs : FS) :
    List Ev × FS × Except Error Unit :=
  let out := buildProbeCore env probe (fs probe)
  (out.1, fsSet fs probe out.2.1, out.2.2)

/-- The probe loop of `build_with_features` (build.rs:351-353): build each
probe in order, stopping at the first failure. -/
def run_probes (env : String → ProbeEnv) (fs : FS) : List String → List Ev × FS × Except Error Unit
  | [] => ([], fs, .ok ())
  | p :: rest =>
    match build_probe (env p) p fs with
    | (tr, fs1, .ok _) =>
      let out := run_probes env fs1 rest
      (tr ++ out.1, out.2)
    | (tr, fs1, .error e) => (tr, fs1, .error e)

/-! ## Derived notions used in the claims -/

/-- Is an event the toolchain compatibility check? -/
def isLlvmCheckEv : Ev → Bool
  | Ev.llvmVersionCheck => true
  | _ => false

/-- Is an event an external compiler invocation? -/
def isCargoEv : Ev → Bool
  | Ev.cargoCompile _ _ => true
  | _ => false

/-- The `bc`-extension files found by the read-dir filter of
build.rs:210-220 when the compiler ran over directory contents `ws`. -/
def cargoBcFiles (env : ProbeEnv) (ws : Workspace) : List String :=
  ((wsWriteAll ws env.cargo_writes).map (fun pr => pr.1)).filter isBcFile

/-- Number of `bc`-extension files the pipeline finds in the probe's
artifacts directory after the compiler ran (build.rs:210-220), starting
from directory contents `ws` as they were before the probe's build. -/
def bcFileCount (env : ProbeEnv) (ws : Workspace) : Nat :=
  (cargoBcFiles env (if env.remove_ok then [] else ws)).length

/-- The published artifact name of a probe. -/
def elfName (p : String) : String := p ++ ".elf"

/-- Result of one probe's build from given directory contents. -/
def probeResult (env : ProbeEnv) (p : String) (ws : Workspace) : Except Error Unit :=
  (buildProbeCore env p ws).2.2

/-- Final directory contents of one probe's build. -/
def probeFinalWs (env : ProbeEnv) (p : String) (ws : Workspace) : Workspace :=
  (buildProbeCore env p ws).2.1

/-- Does the tc_action conditional stage succeed (vacuously when the object
declares no `tc_action/` function section)?  The temporary object holds
`env.obj_content` when this stage runs. -/
def tcCondOk (env : ProbeEnv) : Bool :=
  if containsTc env then
    match env.parse env.obj_content with
    | none => false
    | some elf =>
      match check_tc_action_relocs elf with
      | .ok _ => (env.btf_fix env.obj_content).isSome
      | .error _ => false
  else true

/-- Did probe `p`'s build complete during a run over `ps` started from
target tree `fs0` (valid when `ps` has no duplicates, since then every
probe's build starts from its `fs0` directory)? -/
def completedIn (env : String → ProbeEnv) (fs0 : FS) (p : String) : List String → Bool
  | [] => false
  | q :: rest =>
    if q = p then probeResult (env p) p (fs0 p) == .ok ()
    else (probeResult (env q) q (fs0 q) == .ok ()) && completedIn env fs0 p rest

/-! ## Concrete objects used to instantiate the theorems -/

/-- A synthetic object with one `.reltc_action/` relocation section whose
single relocation resolves to a `.rodata` section symbol of type
`STT_SECTION`. -/
def elfBad : Elf where
  section_headers := [⟨0⟩, ⟨20⟩]
  shdr_strtab := fun o => if o = 0 then some ".reltc_action/foo"
    else if o = 20 then some ".rodata" else none
  syms := [⟨3, 1⟩]
  shdr_relocs := [(0, [⟨0⟩])]

/-- `elfBad` with the relocation's symbol retyped as an object (map) symbol
instead of a plain section reference; otherwise identical. -/
def elfGood : Elf where
  section_headers := [⟨0⟩, ⟨20⟩]
  shdr_strtab := fun o => if o = 0 then some ".reltc_action/foo"
    else if o = 20 then some ".rodata" else none
  syms := [⟨1, 1⟩]
  shdr_relocs := [(0, [⟨0⟩])]

/-- An object whose tc_action relocation entry is unresolvable: the symbol
index is out of range. -/
def elfUnresolvable : Elf where
  section_headers := [⟨0⟩, ⟨20⟩]
  shdr_strtab := fun o => if o = 0 then some ".reltc_action/foo"
    else if o = 20 then some ".rodata" else none
  syms := [⟨3, 1⟩]
  shdr_relocs := [(0, [⟨9⟩])]

/-- An external-outcome oracle in which every interaction succeeds, the
compiler emits exactly one bitcode file and the object declares no
`tc_action/` function section. -/
def goodEnv : ProbeEnv where
  remove_ok := true
  kernel := some ⟨5, 4⟩
  linked_llvm := some ⟨12, 0, 1⟩
  rustc_meta := some (some ⟨11, 2, 3⟩)
  rustc_err := ""
  cargo_ok := true
  cargo_writes := [("probe.bc", 1)]
  llc_ok := true
  llc_err := ""
  obj_content := 2
  opt_content := 3
  section_names := some []
  parse := fun _ => none
  btf_fix := fun _ => none
  strip_ok := true
  strip_out := fun c => c + 10
  rename_ok := true

/-- `goodEnv` with all four tolerated failures at once: deleting the stale
artifacts directory fails, kernel-version detection fails, function section
name enumeration fails, and stripping fails. -/
def toleratedFailEnv : ProbeEnv :=
  { goodEnv with remove_ok := false, kernel := none, section_names := none, strip_ok := false }

/-- The empty target tree. -/
def fs0 : FS := fun _ => []

/-- A two-probe run environment: probe `a` builds successfully, probe `b`
fails at the external compiler. -/
def c8env : String → ProbeEnv := fun q =>
  if q = "b" then { goodEnv with cargo_ok := false } else goodEnv

/-! # Theorems -/

/-! ## The relocation validator (claims C1 and C10) -/

theorem checkRelocList_ok_iff (b : Elf) (name : String) (rs : List Reloc) :
    checkRelocList b name rs = .ok () ↔ rs.any (relocEntryBad b) = false := by
  induction rs with
  | nil => simp [checkRelocList]
  | cons r rest ih =>
    cases hsym : b.syms[r.r_sym]? with
    | none => simp [checkRelocList, relocEntryBad, relocBadInfo, hsym, ih]
    | some sym =>
      cases hsh : b.section_headers[sym.st_shndx]? with
      | none => simp [checkRelocList, relocEntryBad, relocBadInfo, hsym, hsh, ih]
      | some shdr =>
        cases hn : b.shdr_strtab shdr.sh_name with
        | none => simp [checkRelocList, relocEntryBad, relocBadInfo, hsym, hsh, hn, ih]
        | some n =>
          by_cases ht : sym.st_type = STT_SECTION
          · simp [checkRelocList, relocEntryBad, relocBadInfo, hsym, hsh, hn, ht]
          · simp [checkRelocList, relocEntryBad, relocBadInfo, hsym, hsh, hn, ht, ih]

theorem checkRelocList_error (b : Elf) (name : String) (rs : List Reloc) (e : Error)
    (h : checkRelocList b name rs = .error e) :
    ∃ r ∈ rs, ∃ s, relocBadInfo b r = some s ∧
      e = .IllegalProgram (tcRelocMsg (strDrop name 4) s) := by
  induction rs with
  | nil => simp [checkRelocList] at h
  | cons r rest ih =>
    rw [checkRelocList] at h
    cases hsym : b.syms[r.r_sym]? with
    | none =>
      simp only [hsym] at h
      obtain ⟨r', hr', hs⟩ := ih h
      exact ⟨r', List.mem_cons_of_mem _ hr', hs⟩
    | some sym =>
      simp only [hsym] at h
      cases hsh : b.section_headers[sym.st_shndx]? with
      | none =>
        simp only [hsh] at h
        obtain ⟨r', hr', hs⟩ := ih h
        exact ⟨r', List.mem_cons_of_mem _ hr', hs⟩
      | some shdr =>
        simp only [hsh] at h
        cases hn : b.shdr_strtab shdr.sh_name with
        | none =>
          simp only [hn] at h
          obtain ⟨r', hr', hs⟩ := ih h
          exact ⟨r', List.mem_cons_of_mem _ hr', hs⟩
        | some n =>
          simp only [hn] at h
          by_cases ht : sym.st_type = STT_SECTION
          · rw [if_pos ht] at h
            refine ⟨r, List.mem_cons_self _ _, n, ?_, ?_⟩
            · simp [relocBadInfo, hsym, hsh, hn, ht]
            · exact (Except.error.injEq _ _).mp h.symm
          · rw [if_neg ht] at h
            obtain ⟨r', hr', hs⟩ := ih h
            exact ⟨r', List.mem_cons_of_mem _ hr', hs⟩

theorem checkRelocSecs_ok_iff (b : Elf) (l : List (Nat × List Reloc)) :
    checkRelocSecs b l = .ok () ↔ l.any (relocSecBad b) = false := by
  induction l with
  | nil => simp [checkRelocSecs]
  | cons pr rest ih =>
    obtain ⟨shidx, relsec⟩ := pr
    cases hsh : b.section_headers[shidx]? with
    | none => simp [checkRelocSecs, relocSecBad, relocSecName, hsh, ih]
    | some shdr =>
      cases hn : b.shdr_strtab shdr.sh_name with
      | none => simp [checkRelocSecs, relocSecBad, relocSecName, hsh, hn, ih]
      | some nm =>
        by_cases hpre : strStartsWith nm ".reltc_action/" = true
        · cases hc : checkRelocList b nm relsec with
          | ok u =>
            cases u
            have hnone := (checkRelocList_ok_iff b nm relsec).mp hc
            simp [checkRelocSecs, relocSecBad, relocSecName, hsh, hn, hpre, hc, hnone, ih]
          | error e =>
            have hbad : relsec.any (relocEntryBad b) = true := by
              by_contra hfalse
              rw [Bool.not_eq_true, ← checkRelocList_ok_iff b nm relsec] at hfalse
              rw [hfalse] at hc
              exact Except.noConfusion hc
            simp [checkRelocSecs, relocSecBad, relocSecName, hsh, hn, hpre, hc, hbad]
        · simp [checkRelocSecs, relocSecBad, relocSecName, hsh, hn, hpre, ih]

theorem checkRelocSecs_error (b : Elf) (l : List (Nat × List Reloc)) (e : Error)
    (h : checkRelocSecs b l = .error e) :
    ∃ pr ∈ l, ∃ name s, relocSecName b pr.1 = some name ∧
      strStartsWith name ".reltc_action/" = true ∧
      (∃ r ∈ pr.2, relocBadInfo b r = some s) ∧
      e = .IllegalProgram (tcRelocMsg (strDrop name 4) s) := by
  induction l with
  | nil => simp [checkRelocSecs] at h
  | cons pr rest ih =>
    obtain ⟨shidx, relsec⟩ := pr
    rw [checkRelocSecs] at h
    cases hsh : b.section_headers[shidx]? with
    | none =>
      simp only [hsh] at h
      obtain ⟨pr', hpr', hs⟩ := ih h
      exact ⟨pr', List.mem_cons_of_mem _ hpr', hs⟩
    | some shdr =>
      simp only [hsh] at h
      cases hn : b.shdr_strtab shdr.sh_name with
      | none =>
        simp only [hn] at h
        obtain ⟨pr', hpr', hs⟩ := ih h
        exact ⟨pr', List.mem_cons_of_mem _ hpr', hs⟩
      | some nm =>
        simp only [hn] at h
        by_cases hpre : strStartsWith nm ".reltc_action/" = true
        · rw [if_pos hpre] at h
          cases hc : checkRelocList b nm relsec with
          | ok u =>
            cases u
            simp only [hc] at h
            obtain ⟨pr', hpr', hs⟩ := ih h
            exact ⟨pr', List.mem_cons_of_mem _ hpr', hs⟩
          | error e' =>
            simp only [hc] at h
            have he : e' = e := (Except.error.injEq _ _).mp h
            obtain ⟨r, hr, s, hinfo, hmsg⟩ := checkRelocList_error b nm relsec e' hc
            refine ⟨(shidx, relsec), List.mem_cons_self _ _, nm, s, ?_, hpre, ⟨r, hr, hinfo⟩, ?_⟩
            · simp [relocSecName, hsh, hn]
            · rw [← he, hmsg]
        · rw [if_neg hpre] at h
          obtain ⟨pr', hpr', hs⟩ := ih h
          exact ⟨pr', List.mem_cons_of_mem _ hpr', hs⟩

/-- Claim C1: `check_tc_action_relocs` returns an `IllegalProgram` error iff
some relocation section whose name begins with `.reltc_action/` contains a
relocation entry whose resolved symbol has type `STT_SECTION` (resolution
of the symbol, its containing section and that section's name succeeding);
equivalently it returns success iff no such entry exists, so an
otherwise-identical object whose relocation symbol is not `STT_SECTION`
passes.  On failure the error message names the offending program section
(the relocation section name with its `.rel` prefix removed) and the
referenced data section. -/
theorem claim_c1_tc_reloc_validator (b : Elf) :
    (check_tc_action_relocs b = .ok () ↔ spec_has_bad_tc_reloc b = false) ∧
    (∀ e, check_tc_action_relocs b = .error e →
      ∃ pr ∈ b.shdr_relocs, ∃ name s,
        relocSecName b pr.1 = some name ∧
        strStartsWith name ".reltc_action/" = true ∧
        (∃ r ∈ pr.2, relocBadInfo b r = some s) ∧
        e = .IllegalProgram (tcRelocMsg (strDrop name 4) s)) := by
  constructor
  · exact checkRelocSecs_ok_iff b b.shdr_relocs
  · intro e he
    exact checkRelocSecs_error b b.shdr_relocs e he

/-- Witness for C1: the synthetic object with a plain-section relocation is
rejected with the message naming `tc_action/foo` and `.rodata`, while the
otherwise-identical object whose symbol is a map (object) symbol passes. -/
theorem claim_c1_witness :
    check_tc_action_relocs elfGood = .ok () ∧
    check_tc_action_relocs elfBad =
      .error (.IllegalProgram (tcRelocMsg "tc_action/foo" ".rodata")) :=
  ⟨(claim_c1_tc_reloc_validator elfGood).1.mpr (by decide), by decide⟩

/-- Claim C10: the validator is total over arbitrary parsed objects: it
either succeeds, or there is a fully resolved relocation entry (resolvable
section header, section name, symbol, symbol section header and symbol
section name) of `STT_SECTION` type in a `.reltc_action/` section and it
returns exactly the `IllegalProgram` error for that entry; every entry with
any unresolvable component is silently skipped. -/
theorem claim_c10_validator_total (b : Elf) :
    check_tc_action_relocs b = .ok () ∨
    ∃ pr ∈ b.shdr_relocs, ∃ name s,
      relocSecName b pr.1 = some name ∧
      strStartsWith name ".reltc_action/" = true ∧
      (∃ r ∈ pr.2, relocBadInfo b r = some s) ∧
      check_tc_action_relocs b = .error (.IllegalProgram (tcRelocMsg (strDrop name 4) s)) := by
  cases hc : check_tc_action_relocs b with
  | ok u => cases u; exact Or.inl rfl
  | error e =>
    right
    obtain ⟨pr, hpr, name, s, h1, h2, h3, he⟩ := checkRelocSecs_error b b.shdr_relocs e hc
    exact ⟨pr, hpr, name, s, h1, h2, h3, by rw [he]⟩

/-! ## The LLVM version guard (claim C2) -/

/-- Claim C2: the toolchain compatibility guard succeeds iff the linked
backend version is lexicographically ≥ the active compiler backend version
on (major, minor); the patch components of both versions are ignored; and
on failure the error is `InvalidLLVMVersion` carrying the message that
names both versions. -/
theorem claim_c2_llvm_guard (l a : SemVer) :
    (llvm_version_guard l a = .ok () ↔
      (a.major < l.major ∨ (a.major = l.major ∧ a.minor ≤ l.minor))) ∧
    (∀ p q : Nat, llvm_version_guard { l with patch := p } { a with patch := q } =
      llvm_version_guard l a) ∧
    (llvm_version_guard l a ≠ .ok () →
      llvm_version_guard l a = .error (.InvalidLLVMVersion (llvmVersionMsg l a))) := by
  refine ⟨?_, ?_, ?_⟩
  · unfold llvm_version_guard
    by_cases h : l.major < a.major ∨ (l.major = a.major ∧ l.minor < a.minor)
    · rw [if_pos h]
      constructor
      · intro hc; exact absurd hc (by simp)
      · intro hc; omega
    · rw [if_neg h]
      constructor
      · intro _; omega
      · intro _; rfl
  · intro p q
    cases l; cases a; rfl
  · unfold llvm_version_guard
    by_cases h : l.major < a.major ∨ (l.major = a.major ∧ l.minor < a.minor)
    · rw [if_pos h]; intro _; rfl
    · rw [if_neg h]; intro hc; exact absurd rfl hc

/-- Witness for C2: a concrete passing pair (equal majors, larger linked
minor, patches differing) and a concrete failing pair with its message. -/
theorem claim_c2_witness :
    llvm_version_guard ⟨12, 3, 5⟩ ⟨12, 0, 9⟩ = .ok () ∧
    llvm_version_guard ⟨11, 5, 0⟩ ⟨12, 0, 0⟩ =
      .error (.InvalidLLVMVersion (llvmVersionMsg ⟨11, 5, 0⟩ ⟨12, 0, 0⟩)) :=
  ⟨(claim_c2_llvm_guard ⟨12, 3, 5⟩ ⟨12, 0, 9⟩).1.mpr (by decide),
   (claim_c2_llvm_guard ⟨11, 5, 0⟩ ⟨12, 0, 0⟩).2.2 (by decide)⟩

/-! ## The kernel version resolver (claim C5) -/

/-- The directory contents and result of `stageCargo` do not depend on the
`--cfg` string (it only appears in the emitted event). -/
theorem stageCargo_snd_cfg (env : ProbeEnv) (p : String) (ws : Workspace) (cfg cfg' : String) :
    (stageCargo env p ws cfg).2 = (stageCargo env p ws cfg').2 := by
  unfold stageCargo
  by_cases hc : env.cargo_ok = true
  · simp only [hc]
    cases hf : List.filter isBcFile (List.map (fun pr => pr.1) (wsWriteAll ws env.cargo_writes)) with
    | nil => rfl
    | cons a l =>
      cases l with
      | nil => rfl
      | cons b l2 => rfl
  · simp only [Bool.not_eq_true] at hc
    simp only [hc]
    rfl

/-- The result of `build_probe`, split on the version guard. -/
theorem buildProbeCore_res (env : ProbeEnv) (p : String) (ws : Workspace) :
    (buildProbeCore env p ws).2.2 =
      match stageGuardResult env with
      | .error e => .error e
      | .ok _ => (stageCargo env p (if env.remove_ok then [] else ws)
          (kernel_version_cfg env.kernel)).2.2 := by
  unfold buildProbeCore
  cases stageGuardResult env with
  | error e => rfl
  | ok u => rfl

/-- Claim C5: for a detected version with major ≥ 5 and patch ≥ 7 the
injected compile-time fact reports patch exactly 7; for major ≥ 5 with
patch < 7, or major < 5, it reports the detected patch unchanged, formatted
as `kernel_version="<major>.<patch>"`; when detection fails the fact is the
literal `kernel_version="unknown"` and the probe build's outcome is the
same as with any detected version (the failure does not abort the build). -/
theorem claim_c5_kernel_version :
    (∀ v : KernelVersion, 5 ≤ v.version → 7 ≤ v.patchlevel →
      kernel_version_cfg (some v) =
        "kernel_version=\"" ++ toString v.version ++ "." ++ toString 7 ++ "\"") ∧
    (∀ v : KernelVersion, v.version < 5 ∨ v.patchlevel < 7 →
      kernel_version_cfg (some v) =
        "kernel_version=\"" ++ toString v.version ++ "." ++ toString v.patchlevel ++ "\"") ∧
    kernel_version_cfg none = "kernel_version=\"unknown\"" ∧
    (∀ (env : ProbeEnv) (p : String) (fs : FS),
      (build_probe { env with kernel := none } p fs).2.2 = (build_probe env p fs).2.2) := by
  refine ⟨?_, ?_, rfl, ?_⟩
  · intro v h1 h2
    obtain ⟨mv, pv⟩ := v
    have h1' : 5 ≤ mv := h1
    have h2' : 7 ≤ pv := h2
    simp only [kernel_version_cfg]
    rw [if_pos (show ({ version := mv, patchlevel := pv } : KernelVersion).version ≥ 5 ∧
      ({ version := mv, patchlevel := pv } : KernelVersion).patchlevel ≥ 7 from ⟨h1', h2'⟩)]
  · intro v h
    obtain ⟨mv, pv⟩ := v
    have h' : mv < 5 ∨ pv < 7 := h
    simp only [kernel_version_cfg]
    rw [if_neg (show ¬(({ version := mv, patchlevel := pv } : KernelVersion).version ≥ 5 ∧
      ({ version := mv, patchlevel := pv } : KernelVersion).patchlevel ≥ 7) by
        simp only [ge_iff_le]
        omega)]
  · intro env p fs
    show (buildProbeCore { env with kernel := none } p (fs p)).2.2 =
      (buildProbeCore env p (fs p)).2.2
    rw [buildProbeCore_res, buildProbeCore_res]
    cases hgr : stageGuardResult env with
    | error e =>
      have hg1 : stageGuardResult { env with kernel := none } = .error e := hgr
      rw [hg1]
    | ok u =>
      cases u
      have hg1 : stageGuardResult { env with kernel := none } = .ok () := hgr
      rw [hg1]
      have henv : ∀ (ws : Workspace) (cfg : String),
          stageCargo { env with kernel := none } p ws cfg = stageCargo env p ws cfg :=
        fun ws cfg => rfl
      rw [henv]
      exact congrArg Prod.snd (stageCargo_snd_cfg env p _ (kernel_version_cfg none)
        (kernel_version_cfg env.kernel))

/-- Witness for C5: concrete evaluations — patch 19 on kernel 5 is clamped
to 7, patch 4 is kept, kernel 4.20 is kept, detection failure yields the
sentinel, and a probe build with failed detection still succeeds. -/
theorem claim_c5_witness :
    kernel_version_cfg (some ⟨5, 19⟩) = "kernel_version=\"5.7\"" ∧
    kernel_version_cfg (some ⟨5, 4⟩) = "kernel_version=\"5.4\"" ∧
    kernel_version_cfg (some ⟨4, 20⟩) = "kernel_version=\"4.20\"" ∧
    kernel_version_cfg none = "kernel_version=\"unknown\"" :=
  ⟨(claim_c5_kernel_version.1 ⟨5, 19⟩ (by decide) (by decide)).trans (by decide),
   (claim_c5_kernel_version.2.1 ⟨5, 4⟩ (by decide)).trans (by decide),
   (claim_c5_kernel_version.2.1 ⟨4, 20⟩ (by decide)).trans (by decide),
   claim_c5_kernel_version.2.2.1⟩

/-! ## Workspace lemmas -/

theorem wsGet_write_self (ws : Workspace) (n : String) (c : Content) :
    wsGet (wsWrite ws n c) n = some c := by
  simp [wsGet, wsWrite, List.find?]

theorem find?_filter_ne {α : Type} (l : List (String × α)) (n m : String) (h : m ≠ n) :
    List.find? (fun pr => decide (pr.1 = m)) (l.filter (fun pr => decide (pr.1 ≠ n))) =
    List.find? (fun pr => decide (pr.1 = m)) l := by
  induction l with
  | nil => rfl
  | cons a l ih =>
    by_cases ha : a.1 = n
    · have ham : ¬a.1 = m := fun hc => h ((hc ▸ ha : m = n))
      rw [List.filter_cons_of_neg (by simp [ha]),
        List.find?_cons_of_neg _ (by simp [ham]), ih]
    · by_cases ham : a.1 = m
      · rw [List.filter_cons_of_pos (by simp [ha]),
          List.find?_cons_of_pos _ (by simp [ham]),
          List.find?_cons_of_pos _ (by simp [ham])]
      · rw [List.filter_cons_of_pos (by simp [ha]),
          List.find?_cons_of_neg _ (by simp [ham]),
          List.find?_cons_of_neg _ (by simp [ham]), ih]

theorem find?_filter_self {α : Type} (l : List (String × α)) (n : String) :
    List.find? (fun pr => decide (pr.1 = n)) (l.filter (fun pr => decide (pr.1 ≠ n))) = none := by
  induction l with
  | nil => rfl
  | cons a l ih =>
    by_cases ha : a.1 = n
    · rw [List.filter_cons_of_neg (by simp [ha]), ih]
    · rw [List.filter_cons_of_pos (by simp [ha]),
        List.find?_cons_of_neg _ (by simp [ha]), ih]

theorem wsGet_write_ne (ws : Workspace) (n m : String) (c : Content) (h : m ≠ n) :
    wsGet (wsWrite ws n c) m = wsGet ws m := by
  unfold wsGet wsWrite
  rw [List.find?_cons_of_neg _ (by simpa using Ne.symm h), find?_filter_ne ws n m h]

theorem wsGet_remove_ne (ws : Workspace) (n m : String) (h : m ≠ n) :
    wsGet (wsRemove ws n) m = wsGet ws m := by
  unfold wsGet wsRemove
  rw [find?_filter_ne ws n m h]

theorem wsGet_remove_self (ws : Workspace) (n : String) :
    wsGet (wsRemove ws n) n = none := by
  unfold wsGet wsRemove
  rw [find?_filter_self ws n]
  rfl

theorem wsGet_writeAll_not_mem (files : List (String × Content)) (ws : Workspace) (m : String)
    (h : ∀ f ∈ files, f.1 ≠ m) :
    wsGet (wsWriteAll ws files) m = wsGet ws m := by
  induction files generalizing ws with
  | nil => rfl
  | cons f rest ih =>
    rw [wsWriteAll, ih _ (fun g hg => h g (List.mem_cons_of_mem _ hg)),
      wsGet_write_ne _ _ _ _ (fun hc => h f (List.mem_cons_self _ _) hc.symm)]

theorem fsSet_same (fs : FS) (p : String) (ws : Workspace) : fsSet fs p ws p = ws := by
  simp [fsSet]

theorem fsSet_ne (fs : FS) (p q : String) (ws : Workspace) (h : q ≠ p) :
    fsSet fs p ws q = fs q := by
  simp [fsSet, h]

/-! ## File-name disequalities used by the publication lemmas -/

theorem append_ne_of_last_ne (a b u v : String) (cu cv : Char)
    (hu : u.data.getLast? = some cu) (hv : v.data.getLast? = some cv) (hne : cu ≠ cv) :
    a ++ u ≠ b ++ v := by
  intro h
  have hd : (a ++ u).data = (b ++ v).data := by rw [h]
  rw [String.data_append, String.data_append] at hd
  have h1 : (a.data ++ u.data).getLast? = some cu := by
    rw [List.getLast?_append_of_ne_nil _ (fun hc => by simp [hc] at hu)]
    exact hu
  have h2 : (b.data ++ v.data).getLast? = some cv := by
    rw [List.getLast?_append_of_ne_nil _ (fun hc => by simp [hc] at hv)]
    exact hv
  rw [hd, h2] at h1
  exact hne (Option.some.injEq _ _ ▸ h1.symm)

theorem tmp_ne_elf (p q : String) : p ++ ".elf.tmp" ≠ q ++ ".elf" :=
  append_ne_of_last_ne p q ".elf.tmp" ".elf" 'p' 'f' rfl rfl (by decide)

theorem elf_ne_tmp (p q : String) : p ++ ".elf" ≠ q ++ ".elf.tmp" :=
  fun h => tmp_ne_elf q p h.symm

/-- Both branches of `with_extension _ "bc.opt"` end in `"." ++ "bc.opt"`. -/
theorem with_extension_bcopt (n : String) :
    ∃ s : String, with_extension n "bc.opt" = s ++ "." ++ "bc.opt" := by
  unfold with_extension
  cases fileExtension n with
  | none => exact ⟨n, rfl⟩
  | some e => exact ⟨String.mk (n.data.take (n.data.length - (e.length + 1))), rfl⟩

theorem opt_ne_elf (n q : String) : with_extension n "bc.opt" ≠ q ++ ".elf" := by
  obtain ⟨s, hs⟩ := with_extension_bcopt n
  rw [hs, String.append_assoc]
  exact append_ne_of_last_ne s q ("." ++ "bc.opt") ".elf" 't' 'f' rfl rfl (by decide)

theorem opt_ne_tmp (n q : String) : with_extension n "bc.opt" ≠ q ++ ".elf.tmp" := by
  obtain ⟨s, hs⟩ := with_extension_bcopt n
  rw [hs, String.append_assoc]
  exact append_ne_of_last_ne s q ("." ++ "bc.opt") ".elf.tmp" 't' 'p' rfl rfl (by decide)

theorem elfName_ne_tmp (p q : String) : elfName p ≠ q ++ ".elf.tmp" :=
  elf_ne_tmp p q

theorem elfName_ne_opt (p n : String) : elfName p ≠ with_extension n "bc.opt" :=
  fun h => opt_ne_elf n p h.symm

/-! ## Stage result lemmas -/

/-- The finalizer's trace is always the strip attempt followed by the
rename attempt. -/
theorem stageFinal_tr (env : ProbeEnv) (p : String) (ws : Workspace) (tmp : String)
    (keep : Bool) :
    (stageFinal env p ws tmp keep).1 = [Ev.stripSections p keep, Ev.renameToFinal p] := by
  simp only [stageFinal]
  repeat (first | rfl | split)

/-- A present temporary object survives the strip attempt. -/
theorem stripAttempt_tmp (env : ProbeEnv) (ws : Workspace) (tmp : String)
    (h : (wsGet ws tmp).isSome = true) :
    (wsGet (stripAttempt env ws tmp) tmp).isSome = true := by
  unfold stripAttempt
  by_cases hst : env.strip_ok = true
  · obtain ⟨c, hc⟩ := Option.isSome_iff_exists.mp h
    simp [hst, hc, wsGet_write_self]
  · simp [hst, h]

/-- The strip attempt only touches the temporary object. -/
theorem stripAttempt_other (env : ProbeEnv) (ws : Workspace) (tmp name : String)
    (hne : name ≠ tmp) :
    wsGet (stripAttempt env ws tmp) name = wsGet ws name := by
  unfold stripAttempt
  by_cases hst : env.strip_ok = true
  · cases hw : wsGet ws tmp with
    | some c => simp [hst, hw, wsGet_write_ne _ _ _ _ hne]
    | none => simp [hst, hw]
  · simp [hst]

theorem stageFinal_res (env : ProbeEnv) (p : String) (ws : Workspace) (tmp : String)
    (keep : Bool) (htmp : (wsGet ws tmp).isSome = true) :
    (stageFinal env p ws tmp keep).2.2 =
      if env.rename_ok then .ok () else .error (.IOError "rename failed") := by
  have h1 := stripAttempt_tmp env ws tmp htmp
  obtain ⟨c, hc⟩ := Option.isSome_iff_exists.mp h1
  unfold stageFinal
  cases hrn : env.rename_ok with
  | true => simp [hrn, hc]
  | false => simp [hrn]

/-- The tc_action stage reduces to the finalizer when its conditional work
succeeds (vacuously or not). -/
theorem stageTc_res_ok (env : ProbeEnv) (p : String) (ws : Workspace) (tmp : String)
    (h : wsGet ws tmp = some env.obj_content) (ht : tcCondOk env = true) :
    (stageTc env p ws tmp).2.2 =
      if env.rename_ok then .ok () else .error (.IOError "rename failed") := by
  unfold tcCondOk at ht
  unfold stageTc
  cases hctc : containsTc env with
  | false =>
    simp only [hctc, Bool.false_eq_true, if_false]
    exact stageFinal_res env p ws tmp false (by rw [h]; rfl)
  | true =>
    rw [hctc, if_pos rfl] at ht
    cases hp : env.parse env.obj_content with
    | none => rw [hp] at ht; exact absurd ht (by simp)
    | some elf =>
      simp only [hp] at ht
      cases hchk : check_tc_action_relocs elf with
      | error e => simp only [hchk] at ht; exact absurd ht (by simp)
      | ok u =>
        cases u
        simp only [hchk] at ht
        cases hb : env.btf_fix env.obj_content with
        | none => rw [hb] at ht; exact absurd ht (by simp)
        | some fixed =>
          simp only [hctc, if_true, eq_self_iff_true, h, hp, hchk, hb]
          exact stageFinal_res env p _ tmp true (by rw [wsGet_write_self]; rfl)

/-- The tc_action stage fails when its conditional work fails. -/
theorem stageTc_res_err (env : ProbeEnv) (p : String) (ws : Workspace) (tmp : String)
    (h : wsGet ws tmp = some env.obj_content) (ht : tcCondOk env = false) :
    (stageTc env p ws tmp).2.2 ≠ .ok () := by
  unfold tcCondOk at ht
  unfold stageTc
  cases hctc : containsTc env with
  | false =>
    rw [hctc] at ht
    rw [if_neg (by simp)] at ht
    exact absurd ht (by simp)
  | true =>
    rw [hctc, if_pos rfl] at ht
    cases hp : env.parse env.obj_content with
    | none => simp [hctc, h, hp]
    | some elf =>
      simp only [hp] at ht
      cases hchk : check_tc_action_relocs elf with
      | error e => simp [hctc, h, hp, hchk]
      | ok u =>
        cases u
        simp only [hchk] at ht
        cases hb : env.btf_fix env.obj_content with
        | none => simp [hctc, h, hp, hchk, hb]
        | some fixed => rw [hb] at ht; exact absurd ht (by simp)

/-- The transformer stage, split on the backend outcome. -/
theorem stageLlc_res (env : ProbeEnv) (p : String) (ws : Workspace) (bc : String) :
    (stageLlc env p ws bc).2.2 =
      if env.llc_ok then
        (stageTc env p
          (wsWrite (wsWrite ws (with_extension bc "bc.opt") env.opt_content)
            (p ++ ".elf.tmp") env.obj_content)
          (p ++ ".elf.tmp")).2.2
      else .error (.Compile p (some ("couldn\x27t process IR file: " ++ env.llc_err))) := by
  unfold stageLlc
  cases hl : env.llc_ok with
  | true => simp [hl]
  | false => simp [hl]

/-- The compiler stage, split on the process outcome and the bitcode-file
match. -/
theorem stageCargo_res (env : ProbeEnv) (p : String) (ws : Workspace) (cfg : String)
    (hc : env.cargo_ok = true) :
    (stageCargo env p ws cfg).2.2 =
      match cargoBcFiles env ws with
      | [bc] => (stageLlc env p (wsWriteAll ws env.cargo_writes) bc).2.2
      | _ => .error (.MissingBitcode p) := by
  unfold stageCargo cargoBcFiles
  simp only [hc]
  cases hf : ((wsWriteAll ws env.cargo_writes).map (fun pr => pr.1)).filter isBcFile with
  | nil => rfl
  | cons a l =>
    cases l with
    | nil => rfl
    | cons b l2 => rfl

theorem stageCargo_res_fail (env : ProbeEnv) (p : String) (ws : Workspace) (cfg : String)
    (hc : env.cargo_ok = false) :
    (stageCargo env p ws cfg).2.2 = .error (.Compile p none) := by
  unfold stageCargo
  simp [hc]

/-- Claim C7 (amended): the probe build succeeds iff the LLVM version
resolution and guard, the external compiler, the exactly-one-bitcode check,
the IR-to-object transformation, the (conditional) tc_action
parse/validate/fixup chain and the final rename all succeed.  The four
outcomes absent from the right-hand side — deleting the stale artifacts
directory (`remove_ok`), kernel-version detection (`kernel`), function
section name enumeration (`section_names`, a failure only makes the
tc_action condition false) and stripping (`strip_ok`) — are the silently
tolerated failure points: no value of theirs is required for success. -/
theorem claim_c7_amended (env : ProbeEnv) (p : String) (fs : FS) :
    (build_probe env p fs).2.2 = .ok () ↔
      (stageGuardResult env = .ok () ∧ env.cargo_ok = true ∧ bcFileCount env (fs p) = 1 ∧
       env.llc_ok = true ∧ tcCondOk env = true ∧ env.rename_ok = true) := by
  show (buildProbeCore env p (fs p)).2.2 = .ok () ↔ _
  rw [buildProbeCore_res]
  cases hg : stageGuardResult env with
  | error e => simp
  | ok u =>
    cases u
    dsimp only
    have hcount : bcFileCount env (fs p) =
        (cargoBcFiles env (if env.remove_ok then [] else fs p)).length := rfl
    cases hc : env.cargo_ok with
    | false =>
      rw [stageCargo_res_fail env p _ _ hc]
      simp
    | true =>
      rw [stageCargo_res env p _ _ hc]
      rw [hcount]
      cases hf : cargoBcFiles env (if env.remove_ok then [] else fs p) with
      | nil => simp
      | cons bc l =>
        cases l with
        | cons b l2 => simp
        | nil =>
          dsimp only
          rw [stageLlc_res]
          cases hl : env.llc_ok with
          | false => simp
          | true =>
            rw [if_pos rfl]
            cases ht : tcCondOk env with
            | false =>
              have hne := stageTc_res_err env p
                (wsWrite (wsWrite (wsWriteAll (if env.remove_ok then [] else fs p)
                    env.cargo_writes) (with_extension bc "bc.opt") env.opt_content)
                  (p ++ ".elf.tmp") env.obj_content)
                (p ++ ".elf.tmp") (wsGet_write_self _ _ _) ht
              simp [hne]
            | true =>
              rw [stageTc_res_ok env p _ _ (wsGet_write_self _ _ _) ht]
              cases hrn : env.rename_ok with
              | true => simp
              | false => simp

/-- Counterexample to C7 as stated: in `toleratedFailEnv` the stale
workspace deletion fails and the function-section-name enumeration fails
(and kernel detection and stripping fail too), yet the probe build
succeeds — those failures do not abort the build. -/
theorem claim_c7_counterexample :
    toleratedFailEnv.remove_ok = false ∧ toleratedFailEnv.section_names = none ∧
    toleratedFailEnv.kernel = none ∧ toleratedFailEnv.strip_ok = false ∧
    (build_probe toleratedFailEnv "p" fs0).2.2 = .ok () :=
  ⟨rfl, rfl, rfl, rfl, by decide⟩

/-- Witness for the amended C7: the characterization applied to the
tolerated-failure oracle yields success, and applied to a compiler-failure
oracle yields failure. -/
theorem claim_c7_witness :
    (build_probe toleratedFailEnv "p" fs0).2.2 = .ok () ∧
    ¬(build_probe { goodEnv with cargo_ok := false } "p" fs0).2.2 = .ok () :=
  ⟨(claim_c7_amended toleratedFailEnv "p" fs0).mpr (by decide),
   fun hok => by
    have h := (claim_c7_amended { goodEnv with cargo_ok := false } "p" fs0).mp hok
    exact absurd h.2.1 (by decide)⟩

/-! ## Trace lemmas (claim C3) -/

theorem stageFinal_no_check (env : ProbeEnv) (p : String) (ws : Workspace) (tmp : String)
    (keep : Bool) : (stageFinal env p ws tmp keep).1.countP isLlvmCheckEv = 0 := by
  rw [stageFinal_tr]
  rfl

theorem stageTc_no_check (env : ProbeEnv) (p : String) (ws : Workspace) (tmp : String) :
    (stageTc env p ws tmp).1.countP isLlvmCheckEv = 0 := by
  simp only [stageTc]
  repeat' split
  all_goals
    simp [stageFinal_tr, List.countP_cons, List.countP_append, isLlvmCheckEv, List.countP_nil]

theorem stageLlc_no_check (env : ProbeEnv) (p : String) (ws : Workspace) (bc : String) :
    (stageLlc env p ws bc).1.countP isLlvmCheckEv = 0 := by
  simp only [stageLlc]
  split
  · simp [List.countP_cons, isLlvmCheckEv, stageTc_no_check]
  · simp [List.countP_cons, isLlvmCheckEv]

theorem stageCargo_no_check (env : ProbeEnv) (p : String) (ws : Workspace) (cfg : String) :
    (stageCargo env p ws cfg).1.countP isLlvmCheckEv = 0 := by
  simp only [stageCargo]
  repeat' split
  all_goals simp [List.countP_cons, isLlvmCheckEv, stageLlc_no_check]

theorem tracePre_count (p : String) : (tracePre p).countP isLlvmCheckEv = 1 := rfl

/-- Every `build_probe` trace is the fixed preamble — target-dir creation,
artifacts-dir removal and recreation, kernel-version detection, the LLVM
version check — followed by check-free events, and nothing follows the
preamble when the guard fails. -/
theorem build_probe_trace (env : ProbeEnv) (p : String) (fs : FS) :
    ∃ rest, (build_probe env p fs).1 = tracePre p ++ rest ∧
      rest.countP isLlvmCheckEv = 0 ∧
      (stageGuardResult env ≠ .ok () → rest = []) := by
  show ∃ rest, (buildProbeCore env p (fs p)).1 = _ ∧ _
  unfold buildProbeCore
  cases hg : stageGuardResult env with
  | error e =>
    exact ⟨[], by simp, rfl, fun _ => rfl⟩
  | ok u =>
    cases u
    exact ⟨(stageCargo env p (if env.remove_ok then [] else fs p)
        (kernel_version_cfg env.kernel)).1, rfl,
      stageCargo_no_check env p _ _, fun hne => absurd rfl hne⟩

theorem run_probes_count (env : String → ProbeEnv) (ps : List String) :
    ∀ fs : FS, (run_probes env fs ps).2.2 = .ok () →
      (run_probes env fs ps).1.countP isLlvmCheckEv = ps.length := by
  induction ps with
  | nil => intro fs _; rfl
  | cons p rest ih =>
    intro fs h
    rw [run_probes] at h ⊢
    rcases hb : build_probe (env p) p fs with ⟨tr, fs1, r⟩
    rw [hb] at h
    cases r with
    | ok u =>
      cases u
      dsimp only at h ⊢
      rw [List.countP_append, ih fs1 h]
      obtain ⟨restTr, htr, hcnt, _⟩ := build_probe_trace (env p) p fs
      rw [hb] at htr
      dsimp only at htr
      rw [htr, List.countP_append, tracePre_count, hcnt, List.length_cons]
      omega
    | error e =>
      dsimp only at h
      exact absurd h (by simp)

/-- Claim C3 (amended): the toolchain compatibility check runs once per
probe rather than once per invocation: within each probe's build it is
performed exactly once, after that probe's workspace is deleted and
recreated (events 2 and 3 of the preamble) but before any compiler
invocation (the preamble contains no compiler event and all events after
the preamble are check-free), and nothing at all — in particular no
compilation — follows a failing check; a run that builds n probes
successfully performs the check n times. -/
theorem claim_c3_amended :
    (∀ (env : ProbeEnv) (p : String) (fs : FS), ∃ rest,
      (build_probe env p fs).1 = tracePre p ++ rest ∧
      rest.countP isLlvmCheckEv = 0 ∧
      (stageGuardResult env ≠ .ok () → rest = []) ∧
      (∀ (q : String) (cfg : String), Ev.cargoCompile q cfg ∉ tracePre p)) ∧
    (∀ (env : String → ProbeEnv) (ps : List String) (fs : FS),
      (run_probes env fs ps).2.2 = .ok () →
      (run_probes env fs ps).1.countP isLlvmCheckEv = ps.length) := by
  constructor
  · intro env p fs
    obtain ⟨rest, h1, h2, h3⟩ := build_probe_trace env p fs
    exact ⟨rest, h1, h2, h3, fun q cfg => by simp [tracePre]⟩
  · intro env ps fs h
    exact run_probes_count env ps fs h

/-- Witness for the amended C3: a concrete successful two-probe run
performs the check twice. -/
theorem claim_c3_witness :
    (run_probes (fun _ => goodEnv) fs0 ["a", "b"]).1.countP isLlvmCheckEv = 2 :=
  claim_c3_amended.2 (fun _ => goodEnv) ["a", "b"] fs0 (by decide)

/-- Counterexample to C3 as stated: in a concrete successful two-probe run
the check happens twice (not once per invocation), and the first probe's
workspace is deleted and recreated (trace positions 1 and 2) before the
first check occurs (position 4). -/
theorem claim_c3_counterexample :
    (run_probes (fun _ => goodEnv) fs0 ["a", "b"]).1.countP isLlvmCheckEv = 2 ∧
    (run_probes (fun _ => goodEnv) fs0 ["a", "b"]).1.take 5 =
      [Ev.createTargetDir, Ev.removeArtifactsDir "a", Ev.createArtifactsDir "a",
       Ev.kernelVersionDetect, Ev.llvmVersionCheck] := by
  constructor <;> decide

/-! ## The exactly-one-bitcode invariant (claim C4) -/

/-- With a passing guard, `build_probe` is the preamble followed by the
compiler stage. -/
theorem build_probe_guard_ok (env : ProbeEnv) (p : String) (fs : FS)
    (hg : stageGuardResult env = .ok ()) :
    build_probe env p fs =
      (tracePre p ++ (stageCargo env p (if env.remove_ok then [] else fs p)
          (kernel_version_cfg env.kernel)).1,
       fsSet fs p (stageCargo env p (if env.remove_ok then [] else fs p)
          (kernel_version_cfg env.kernel)).2.1,
       (stageCargo env p (if env.remove_ok then [] else fs p)
          (kernel_version_cfg env.kernel)).2.2) := by
  unfold build_probe buildProbeCore
  rw [hg]

/-- A failed bitcode count stops the probe build at the missing-bitcode
error with no further events. -/
theorem stageCargo_missing (env : ProbeEnv) (p : String) (ws : Workspace) (cfg : String)
    (hc : env.cargo_ok = true) (hn : (cargoBcFiles env ws).length ≠ 1) :
    stageCargo env p ws cfg =
      ([Ev.cargoCompile p cfg], wsWriteAll ws env.cargo_writes,
       .error (.MissingBitcode p)) := by
  unfold stageCargo
  simp only [hc]
  unfold cargoBcFiles at hn
  cases hf : ((wsWriteAll ws env.cargo_writes).map (fun pr => pr.1)).filter isBcFile with
  | nil => rfl
  | cons a l =>
    cases l with
    | nil => rw [hf] at hn; exact absurd rfl hn
    | cons b l2 => rfl

/-- A unique bitcode file hands over to the transformer stage. -/
theorem stageCargo_one (env : ProbeEnv) (p : String) (ws : Workspace) (cfg : String)
    (bc : String) (hc : env.cargo_ok = true) (hf : cargoBcFiles env ws = [bc]) :
    stageCargo env p ws cfg =
      (Ev.cargoCompile p cfg :: (stageLlc env p (wsWriteAll ws env.cargo_writes) bc).1,
       (stageLlc env p (wsWriteAll ws env.cargo_writes) bc).2) := by
  unfold stageCargo
  simp only [hc]
  unfold cargoBcFiles at hf
  rw [hf]
  rfl

/-- The transformer stage's trace always starts with the transformer
event. -/
theorem stageLlc_tr_head (env : ProbeEnv) (p : String) (ws : Workspace) (bc : String) :
    ∃ t, (stageLlc env p ws bc).1 = Ev.llvmCompile p :: t := by
  unfold stageLlc
  cases hl : env.llc_ok with
  | true => exact ⟨_, rfl⟩
  | false => exact ⟨[], rfl⟩

/-- Claim C4: after a successful external compiler run, the pipeline counts
the files with extension `bc` in the probe's artifacts directory; the build
proceeds to the IR-to-object transformer only when that count is 1, and
both 0 and ≥ 2 yield the `MissingBitcode` error naming the probe (and no
transformer invocation). -/
theorem claim_c4_bitcode_count (env : ProbeEnv) (p : String) (fs : FS)
    (hg : stageGuardResult env = .ok ()) (hc : env.cargo_ok = true) :
    (bcFileCount env (fs p) ≠ 1 →
      (build_probe env p fs).2.2 = .error (.MissingBitcode p) ∧
      Ev.llvmCompile p ∉ (build_probe env p fs).1) ∧
    (bcFileCount env (fs p) = 1 → Ev.llvmCompile p ∈ (build_probe env p fs).1) := by
  constructor
  · intro hn
    rw [build_probe_guard_ok env p fs hg,
      stageCargo_missing env p _ _ hc (by exact hn)]
    constructor
    · rfl
    · simp [tracePre]
  · intro hn
    obtain ⟨bc, hbc⟩ := List.length_eq_one.mp hn
    rw [build_probe_guard_ok env p fs hg, stageCargo_one env p _ _ bc hc hbc]
    obtain ⟨t, ht⟩ := stageLlc_tr_head env p
      (wsWriteAll (if env.remove_ok then [] else fs p) env.cargo_writes) bc
    rw [ht]
    simp

/-- Witness for C4: with no bitcode file the concrete build fails with
`MissingBitcode`, with exactly one it reaches the transformer, and with two
it fails again. -/
theorem claim_c4_witness :
    (build_probe { goodEnv with cargo_writes := [] } "p" fs0).2.2 =
      .error (.MissingBitcode "p") ∧
    Ev.llvmCompile "p" ∈ (build_probe goodEnv "p" fs0).1 ∧
    (build_probe { goodEnv with cargo_writes := [("a.bc", 1), ("b.bc", 2)] } "p" fs0).2.2 =
      .error (.MissingBitcode "p") :=
  ⟨((claim_c4_bitcode_count { goodEnv with cargo_writes := [] } "p" fs0 (by decide)
      (by decide)).1 (by decide)).1,
   (claim_c4_bitcode_count goodEnv "p" fs0 (by decide) (by decide)).2 (by decide),
   ((claim_c4_bitcode_count { goodEnv with cargo_writes := [("a.bc", 1), ("b.bc", 2)] }
      "p" fs0 (by decide) (by decide)).1 (by decide)).1⟩

/-! ## The finalizer (claim C6) -/

/-- When every stage up to the finalizer succeeds, the probe build's result
is decided by the rename alone. -/
theorem build_probe_res_reached (env : ProbeEnv) (p : String) (fs : FS)
    (hg : stageGuardResult env = .ok ()) (hc : env.cargo_ok = true)
    (hn : bcFileCount env (fs p) = 1) (hl : env.llc_ok = true) (ht : tcCondOk env = true) :
    (build_probe env p fs).2.2 =
      if env.rename_ok then .ok () else .error (.IOError "rename failed") := by
  show (buildProbeCore env p (fs p)).2.2 = _
  rw [buildProbeCore_res, hg]
  dsimp only
  rw [stageCargo_res env p _ _ hc]
  obtain ⟨bc, hbc⟩ := List.length_eq_one.mp hn
  rw [hbc]
  dsimp only
  rw [stageLlc_res, if_pos hl]
  exact stageTc_res_ok env p _ _ (wsGet_write_self _ _ _) ht

/-- The tc_action stage's trace under success ends with the strip and
rename attempts, the strip flag being the tc_action condition. -/
theorem stageTc_tr_ok (env : ProbeEnv) (p : String) (ws : Workspace) (tmp : String)
    (h : wsGet ws tmp = some env.obj_content) (ht : tcCondOk env = true) :
    ∃ pre, (stageTc env p ws tmp).1 =
      pre ++ [Ev.stripSections p (containsTc env), Ev.renameToFinal p] := by
  unfold tcCondOk at ht
  unfold stageTc
  cases hctc : containsTc env with
  | false =>
    refine ⟨[Ev.sectionNamesQuery p], ?_⟩
    simp only [hctc, Bool.false_eq_true, if_false]
    rw [stageFinal_tr]
  | true =>
    rw [hctc, if_pos rfl] at ht
    cases hp : env.parse env.obj_content with
    | none => rw [hp] at ht; exact absurd ht (by simp)
    | some elf =>
      simp only [hp] at ht
      cases hchk : check_tc_action_relocs elf with
      | error e => simp only [hchk] at ht; exact absurd ht (by simp)
      | ok u =>
        cases u
        simp only [hchk] at ht
        cases hb : env.btf_fix env.obj_content with
        | none => rw [hb] at ht; exact absurd ht (by simp)
        | some fixed =>
          refine ⟨[Ev.sectionNamesQuery p, Ev.parseObject p, Ev.btfFixup p], ?_⟩
          simp only [hctc, if_true, eq_self_iff_true, h, hp, hchk, hb]
          rw [stageFinal_tr]

/-- Claim C6: when the finalizer is reached, the probe's trace ends with a
strip attempt whose keep-type-debug flag equals the tc_action condition,
immediately followed by the rename attempt; and the strip outcome never
changes the probe build's result. -/
theorem claim_c6_finalizer (env : ProbeEnv) (p : String) (fs : FS)
    (hg : stageGuardResult env = .ok ()) (hc : env.cargo_ok = true)
    (hn : bcFileCount env (fs p) = 1) (hl : env.llc_ok = true) (ht : tcCondOk env = true) :
    (∃ pre, (build_probe env p fs).1 =
      pre ++ [Ev.stripSections p (containsTc env), Ev.renameToFinal p]) ∧
    (∀ b : Bool, (build_probe { env with strip_ok := b } p fs).2.2 =
      (build_probe env p fs).2.2) := by
  constructor
  · obtain ⟨bc, hbc⟩ := List.length_eq_one.mp hn
    have htr : (build_probe env p fs).1 =
        tracePre p ++ Ev.cargoCompile p (kernel_version_cfg env.kernel) ::
          (stageLlc env p (wsWriteAll (if env.remove_ok then [] else fs p)
            env.cargo_writes) bc).1 := by
      rw [build_probe_guard_ok env p fs hg, stageCargo_one env p _ _ bc hc hbc]
    have hllc : (stageLlc env p (wsWriteAll (if env.remove_ok then [] else fs p)
        env.cargo_writes) bc).1 =
        Ev.llvmCompile p ::
          (stageTc env p
            (wsWrite (wsWrite (wsWriteAll (if env.remove_ok then [] else fs p)
                env.cargo_writes) (with_extension bc "bc.opt") env.opt_content)
              (p ++ ".elf.tmp") env.obj_content)
            (p ++ ".elf.tmp")).1 := by
      unfold stageLlc
      simp [hl]
    obtain ⟨preTc, hpre⟩ := stageTc_tr_ok env p
      (wsWrite (wsWrite (wsWriteAll (if env.remove_ok then [] else fs p)
          env.cargo_writes) (with_extension bc "bc.opt") env.opt_content)
        (p ++ ".elf.tmp") env.obj_content)
      (p ++ ".elf.tmp") (wsGet_write_self _ _ _) ht
    refine ⟨tracePre p ++ Ev.cargoCompile p (kernel_version_cfg env.kernel) ::
      Ev.llvmCompile p :: preTc, ?_⟩
    rw [htr, hllc, hpre]
    simp [List.append_assoc]
  · intro b
    have hg' : stageGuardResult { env with strip_ok := b } = .ok () := hg
    have hc' : ({ env with strip_ok := b } : ProbeEnv).cargo_ok = true := hc
    have hn' : bcFileCount { env with strip_ok := b } (fs p) = 1 := hn
    have hl' : ({ env with strip_ok := b } : ProbeEnv).llc_ok = true := hl
    have ht' : tcCondOk { env with strip_ok := b } = true := ht
    rw [build_probe_res_reached env p fs hg hc hn hl ht,
      build_probe_res_reached { env with strip_ok := b } p fs hg' hc' hn' hl' ht']

/-- Witness for C6: in the concrete all-success build the trace ends with
the strip attempt (keep flag false, no tc_action section) followed by the
rename, and flipping the strip outcome leaves the result unchanged. -/
theorem claim_c6_witness :
    (∃ pre, (build_probe goodEnv "p" fs0).1 =
      pre ++ [Ev.stripSections "p" (containsTc goodEnv), Ev.renameToFinal "p"]) ∧
    (build_probe { goodEnv with strip_ok := false } "p" fs0).2.2 =
      (build_probe goodEnv "p" fs0).2.2 :=
  ⟨(claim_c6_finalizer goodEnv "p" fs0 (by decide) (by decide) (by decide) (by decide)
      (by decide)).1,
   (claim_c6_finalizer goodEnv "p" fs0 (by decide) (by decide) (by decide) (by decide)
      (by decide)).2 false⟩

/-! ## Idempotent retry (claim C9) -/

/-- Claim C9: a probe's build deletes and recreates the artifacts
directory first (trace positions 0–2), so — provided the deletion
succeeds — the whole build (trace, resulting target tree and result) from
a workspace holding stale artifacts equals the build from an empty
workspace: a rerun never sees stale artifacts. -/
theorem claim_c9_idempotent_retry (env : ProbeEnv) (p : String) (fs : FS)
    (hrm : env.remove_ok = true) :
    build_probe env p fs = build_probe env p (fsSet fs p []) ∧
    (build_probe env p fs).1.take 3 =
      [Ev.createTargetDir, Ev.removeArtifactsDir p, Ev.createArtifactsDir p] := by
  have hws : ∀ ws : Workspace, buildProbeCore env p ws = buildProbeCore env p [] := by
    intro ws
    unfold buildProbeCore
    simp [hrm]
  constructor
  · unfold build_probe
    dsimp only
    rw [hws (fs p), hws ((fsSet fs p []) p)]
    have hid : fsSet (fsSet fs p []) p ((buildProbeCore env p []).2.1) =
        fsSet fs p ((buildProbeCore env p []).2.1) := by
      funext q
      by_cases hq : q = p <;> simp [fsSet, hq]
    rw [hid]
  · obtain ⟨rest, htr, _, _⟩ := build_probe_trace env p fs
    rw [htr]
    rfl

/-- Witness for C9: a concrete stale workspace (leftover bitcode and a
stale temporary object under the probe's directory) yields exactly the
same build as the empty workspace. -/
theorem claim_c9_witness :
    build_probe goodEnv "p"
        (fsSet fs0 "p" [("stale.bc", 7), ("p.elf.tmp", 8)]) =
      build_probe goodEnv "p"
        (fsSet (fsSet fs0 "p" [("stale.bc", 7), ("p.elf.tmp", 8)]) "p" []) :=
  (claim_c9_idempotent_retry goodEnv "p"
    (fsSet fs0 "p" [("stale.bc", 7), ("p.elf.tmp", 8)]) rfl).1

/-! ## Publication lemmas (claim C8): the final artifact name appears iff
the build completed, and only the rename writes it. -/

theorem stageFinal_elf (env : ProbeEnv) (p : String) (ws : Workspace) (keep : Bool)
    (h0 : wsGet ws (elfName p) = none) :
    ((stageFinal env p ws (p ++ ".elf.tmp") keep).2.2 = .ok () →
      (wsGet ((stageFinal env p ws (p ++ ".elf.tmp") keep).2.1) (elfName p)).isSome = true) ∧
    ((stageFinal env p ws (p ++ ".elf.tmp") keep).2.2 ≠ .ok () →
      wsGet ((stageFinal env p ws (p ++ ".elf.tmp") keep).2.1) (elfName p) = none) := by
  have h1 : wsGet (stripAttempt env ws (p ++ ".elf.tmp")) (elfName p) = none := by
    rw [stripAttempt_other env ws (p ++ ".elf.tmp") (elfName p) (elf_ne_tmp p p)]
    exact h0
  unfold stageFinal
  cases hrn : env.rename_ok with
  | false =>
    constructor
    · intro h
      exact absurd h (by simp)
    · intro _
      exact h1
  | true =>
    cases hw : wsGet (stripAttempt env ws (p ++ ".elf.tmp")) (p ++ ".elf.tmp") with
    | some c =>
      simp only [hw, if_true]
      constructor
      · intro _
        rw [show elfName p = p ++ ".elf" from rfl, wsGet_write_self]
        rfl
      · intro hne
        exact absurd rfl hne
    | none =>
      simp only [hw, if_true]
      constructor
      · intro h
        exact absurd h (by simp)
      · intro _
        exact h1

theorem stageTc_elf (env : ProbeEnv) (p : String) (ws : Workspace)
    (h0 : wsGet ws (elfName p) = none) :
    ((stageTc env p ws (p ++ ".elf.tmp")).2.2 = .ok () →
      (wsGet ((stageTc env p ws (p ++ ".elf.tmp")).2.1) (elfName p)).isSome = true) ∧
    ((stageTc env p ws (p ++ ".elf.tmp")).2.2 ≠ .ok () →
      wsGet ((stageTc env p ws (p ++ ".elf.tmp")).2.1) (elfName p) = none) := by
  unfold stageTc
  cases hctc : containsTc env with
  | false => exact stageFinal_elf env p ws false h0
  | true =>
    cases hw : wsGet ws (p ++ ".elf.tmp") with
    | none =>
      simp only [hw, if_true]
      exact ⟨fun h => absurd h (by simp), fun _ => h0⟩
    | some bytes =>
      cases hp : env.parse bytes with
      | none =>
        simp only [hw, hp, if_true]
        exact ⟨fun h => absurd h (by simp), fun _ => h0⟩
      | some elf =>
        cases hchk : check_tc_action_relocs elf with
        | error e =>
          simp only [hw, hp, hchk, if_true]
          exact ⟨fun h => absurd h (by simp), fun _ => h0⟩
        | ok u =>
          cases u
          cases hb : env.btf_fix bytes with
          | none =>
            simp only [hw, hp, hchk, hb, if_true]
            exact ⟨fun h => absurd h (by simp), fun _ => h0⟩
          | some fixed =>
            have h0' : wsGet (wsWrite ws (p ++ ".elf.tmp") fixed) (elfName p) = none := by
              rw [wsGet_write_ne _ _ _ _ (elfName_ne_tmp p p)]
              exact h0
            simp only [hw, hp, hchk, hb, if_true]
            exact stageFinal_elf env p _ true h0'

theorem stageLlc_elf (env : ProbeEnv) (p : String) (ws : Workspace) (bc : String)
    (h0 : wsGet ws (elfName p) = none) :
    ((stageLlc env p ws bc).2.2 = .ok () →
      (wsGet ((stageLlc env p ws bc).2.1) (elfName p)).isSome = true) ∧
    ((stageLlc env p ws bc).2.2 ≠ .ok () →
      wsGet ((stageLlc env p ws bc).2.1) (elfName p) = none) := by
  unfold stageLlc
  cases hl : env.llc_ok with
  | false => exact ⟨fun h => absurd h (by simp), fun _ => h0⟩
  | true =>
    have h0' : wsGet (wsWrite (wsWrite ws (with_extension bc "bc.opt") env.opt_content)
        (p ++ ".elf.tmp") env.obj_content) (elfName p) = none := by
      rw [wsGet_write_ne _ _ _ _ (elfName_ne_tmp p p),
        wsGet_write_ne _ _ _ _ (elfName_ne_opt p bc)]
      exact h0
    exact stageTc_elf env p _ h0'

theorem stageCargo_elf (env : ProbeEnv) (p : String) (ws : Workspace) (cfg : String)
    (h0 : wsGet ws (elfName p) = none)
    (hcw : ∀ f ∈ env.cargo_writes, f.1 ≠ elfName p) :
    ((stageCargo env p ws cfg).2.2 = .ok () →
      (wsGet ((stageCargo env p ws cfg).2.1) (elfName p)).isSome = true) ∧
    ((stageCargo env p ws cfg).2.2 ≠ .ok () →
      wsGet ((stageCargo env p ws cfg).2.1) (elfName p) = none) := by
  unfold stageCargo
  cases hc : env.cargo_ok with
  | false => exact ⟨fun h => absurd h (by simp), fun _ => h0⟩
  | true =>
    have h0' : wsGet (wsWriteAll ws env.cargo_writes) (elfName p) = none := by
      rw [wsGet_writeAll_not_mem _ _ _ hcw]
      exact h0
    dsimp only
    cases hf : ((wsWriteAll ws env.cargo_writes).map (fun pr => pr.1)).filter isBcFile with
    | nil => exact ⟨fun h => absurd h (by simp), fun _ => h0'⟩
    | cons a l =>
      cases l with
      | nil => exact stageLlc_elf env p _ a h0'
      | cons b l2 => exact ⟨fun h => absurd h (by simp), fun _ => h0'⟩

/-- `build_probe` publishes `<probe>.elf` in the probe's own directory iff
it succeeds, provided no stale final artifact pre-exists and the compiler
does not emit a file under the final name. -/
theorem build_probe_elf (env : ProbeEnv) (p : String) (fs : FS)
    (h0 : wsGet (fs p) (elfName p) = none)
    (hcw : ∀ f ∈ env.cargo_writes, f.1 ≠ elfName p) :
    (probeResult env p (fs p) = .ok () →
      (wsGet (probeFinalWs env p (fs p)) (elfName p)).isSome = true) ∧
    (probeResult env p (fs p) ≠ .ok () →
      wsGet (probeFinalWs env p (fs p)) (elfName p) = none) := by
  unfold probeResult probeFinalWs buildProbeCore
  have h0' : wsGet (if env.remove_ok then [] else fs p) (elfName p) = none := by
    by_cases hrm : env.remove_ok = true <;> simp [hrm, h0]
    rfl
  cases hg : stageGuardResult env with
  | error e => exact ⟨fun h => absurd h (by simp), fun _ => h0'⟩
  | ok u =>
    cases u
    exact stageCargo_elf env p _ _ h0' hcw

/-! ## Frame and locality lemmas for the probe loop (claim C8) -/

/-- A probe's build never touches another probe's directory. -/
theorem build_probe_frame (env : ProbeEnv) (p : String) (fs : FS) (q : String)
    (h : q ≠ p) : (build_probe env p fs).2.1 q = fs q := by
  unfold build_probe
  exact fsSet_ne _ _ _ _ h

/-- A probe's build leaves its own directory as `probeFinalWs` computes it
from the directory it started from. -/
theorem build_probe_fs_self (env : ProbeEnv) (p : String) (fs : FS) :
    (build_probe env p fs).2.1 p = probeFinalWs env p (fs p) := by
  unfold build_probe probeFinalWs
  exact fsSet_same _ _ _

theorem build_probe_res_eq (env : ProbeEnv) (p : String) (fs : FS) :
    (build_probe env p fs).2.2 = probeResult env p (fs p) := rfl

/-- The probe loop never touches the directory of a probe outside the
list. -/
theorem run_probes_frame (env : String → ProbeEnv) (ps : List String) :
    ∀ (fs : FS) (q : String), q ∉ ps → (run_probes env fs ps).2.1 q = fs q := by
  induction ps with
  | nil => intro fs q _; rfl
  | cons p rest ih =>
    intro fs q hq
    have hqp : q ≠ p := fun hc => hq (hc ▸ List.mem_cons_self _ _)
    have hqrest : q ∉ rest := fun hc => hq (List.mem_cons_of_mem _ hc)
    rw [run_probes]
    rcases hb : build_probe (env p) p fs with ⟨tr, fs1, r⟩
    have hfs1 : fs1 = (build_probe (env p) p fs).2.1 := by rw [hb]
    cases r with
    | ok u =>
      cases u
      dsimp only
      rw [ih fs1 q hqrest, hfs1, build_probe_frame (env p) p fs q hqp]
    | error e =>
      dsimp only
      rw [hfs1, build_probe_frame (env p) p fs q hqp]

/-- `completedIn` only reads the starting directories of the listed
probes. -/
theorem completedIn_congr (env : String → ProbeEnv) (fs fs' : FS) (p : String)
    (ps : List String) (h : ∀ r ∈ ps, fs r = fs' r) :
    completedIn env fs p ps = completedIn env fs' p ps := by
  induction ps with
  | nil => rfl
  | cons q rest ih =>
    rw [completedIn, completedIn]
    by_cases hqp : q = p
    · subst hqp
      rw [if_pos rfl, if_pos rfl, h q (List.mem_cons_self _ _)]
    · rw [if_neg hqp, if_neg hqp, h q (List.mem_cons_self _ _),
        ih (fun r hr => h r (List.mem_cons_of_mem _ hr))]

/-- Claim C8: in a run over distinct probes starting with no stale final
artifacts, and with a compiler that never emits a file under a final
artifact name, each probe's final artifact exists after the run iff that
probe's build completed every stage during the run; when it completed, the
entry equals exactly what that probe's own build published (so a later
probe's failure leaves it present and unmodified), and it is indeed
present. -/
theorem claim_c8_publication (env : String → ProbeEnv) (ps : List String) (fs : FS)
    (hnd : ps.Nodup)
    (h0 : ∀ p ∈ ps, wsGet (fs p) (elfName p) = none)
    (hcw : ∀ p ∈ ps, ∀ f ∈ (env p).cargo_writes, f.1 ≠ elfName p) :
    ∀ p ∈ ps,
      (wsGet ((run_probes env fs ps).2.1 p) (elfName p) =
        if completedIn env fs p ps then
          wsGet (probeFinalWs (env p) p (fs p)) (elfName p)
        else none) ∧
      (completedIn env fs p ps = true →
        (wsGet (probeFinalWs (env p) p (fs p)) (elfName p)).isSome = true) := by
  induction ps generalizing fs with
  | nil => intro p hp; cases hp
  | cons q rest ih =>
    intro p hp
    have hqrest : q ∉ rest := (List.nodup_cons.mp hnd).1
    have hndrest : rest.Nodup := (List.nodup_cons.mp hnd).2
    rw [run_probes]
    rcases hb : build_probe (env q) q fs with ⟨tr, fs1, r⟩
    have hfs1 : fs1 = (build_probe (env q) q fs).2.1 := by rw [hb]
    have hresq : probeResult (env q) q (fs q) = r := by
      rw [← build_probe_res_eq (env q) q fs, hb]
    cases r with
    | ok u =>
      cases u
      dsimp only
      by_cases hpq : p = q
      · subst hpq
        have hframe : (run_probes env fs1 rest).2.1 p = fs1 p :=
          run_probes_frame env rest fs1 p hqrest
        have hown : fs1 p = probeFinalWs (env p) p (fs p) := by
          rw [hfs1, build_probe_fs_self]
        have hcompleted : completedIn env fs p (p :: rest) = true := by
          rw [completedIn, if_pos rfl, hresq]
          simp
        rw [hframe, hown, hcompleted]
        refine ⟨by rw [if_pos rfl], fun _ => ?_⟩
        exact (build_probe_elf (env p) p fs (h0 p hp)
          (hcw p hp)).1 (by rw [← build_probe_res_eq (env p) p fs, hb])
      · have hprest : p ∈ rest := by
          cases hp with
          | head => exact absurd rfl hpq
          | tail _ h => exact h
        have hfs1eq : ∀ r ∈ rest, fs1 r = fs r := fun r hr => by
          rw [hfs1, build_probe_frame (env q) q fs r
            (fun hc => hqrest (hc ▸ hr))]
        have hcompleted : completedIn env fs p (q :: rest) = completedIn env fs p rest := by
          rw [completedIn, if_neg (fun hc => hpq hc.symm), hresq]
          simp
        obtain ⟨ih1, ih2⟩ := ih fs1 hndrest
          (fun r hr => by rw [hfs1eq r hr]; exact h0 r (List.mem_cons_of_mem _ hr))
          (fun r hr => hcw r (List.mem_cons_of_mem _ hr)) p hprest
        rw [completedIn_congr env fs1 fs p rest hfs1eq, hfs1eq p hprest] at ih1 ih2
        rw [hcompleted]
        exact ⟨ih1, ih2⟩
    | error e =>
      dsimp only
      by_cases hpq : p = q
      · subst hpq
        have hcompleted : completedIn env fs p (p :: rest) = false := by
          rw [completedIn, if_pos rfl, hresq]
          simp
        have hnone : wsGet (fs1 p) (elfName p) = none := by
          rw [hfs1, build_probe_fs_self]
          exact (build_probe_elf (env p) p fs (h0 p hp) (hcw p hp)).2
            (by rw [← build_probe_res_eq (env p) p fs, hb]; simp)
        rw [hcompleted, hnone]
        exact ⟨by simp, fun hc => absurd hc (by simp [hcompleted])⟩
      · have hprest : p ∈ rest := by
          cases hp with
          | head => exact absurd rfl hpq
          | tail _ h => exact h
        have hcompleted : completedIn env fs p (q :: rest) = false := by
          rw [completedIn, if_neg (fun hc => hpq hc.symm), hresq]
          simp
        have hnone : wsGet (fs1 p) (elfName p) = none := by
          rw [hfs1, build_probe_frame (env q) q fs p hpq]
          exact h0 p hp
        rw [hcompleted, hnone]
        exact ⟨by simp, fun hc => absurd hc (by simp [hcompleted])⟩

/-- Witness for C8: in the concrete run where probe `b`'s compilation
fails after probe `a` succeeded, the run ends with `b`'s compile error,
while `a`'s final artifact is present and equal to what `a`'s own build
published. -/
theorem claim_c8_witness :
    wsGet ((run_probes c8env fs0 ["a", "b"]).2.1 "a") (elfName "a") =
      wsGet (probeFinalWs (c8env "a") "a" (fs0 "a")) (elfName "a") ∧
    (wsGet (probeFinalWs (c8env "a") "a" (fs0 "a")) (elfName "a")).isSome = true ∧
    (run_probes c8env fs0 ["a", "b"]).2.2 = .error (.Compile "b" none) := by
  have h := claim_c8_publication c8env ["a", "b"] fs0 (by decide) (by decide) (by decide)
    "a" (by decide)
  refine ⟨?_, h.2 (by decide), by decide⟩
  rw [h.1, if_pos (show completedIn c8env fs0 "a" ["a", "b"] = true by decide)]

end RedBpf
